import Mathlib

/-!
Verification of the event ingestion, classification and aggregation engine
of the repository (source: src/main.py). Pure functions are embedded as Lean
functions over List Char and String; the two storage backends (in-memory
lists, SQLAlchemy tables) are embedded as explicit state types; the Flask
dashboard aggregation is embedded as pure read-side functions over a store
snapshot. Timestamps are wall-clock values irrelevant to every claim and are
omitted from the record types. Python string lowering and the regex word
class are modelled for ASCII text, which covers all data the repository
handles and all concrete inputs below.
-/

namespace Web

/-- Characters matched by the regex class of word characters, restricted to
ASCII as used throughout the repository: letters, digits and underscore. -/
def isWordChar (c : Char) : Bool := c.isAlphanum || c = '_'

/-- ASCII model of the Python string lowering applied before both scans
(main.py lines 70 and 73). -/
def lowerData (t : String) : List Char := t.data.map Char.toLower

/-- Fuel-indexed scanner modelling the regex findall of a hash sign followed
by one or more word characters: at each position, a hash sign followed by a
nonempty maximal word-character run yields a match and scanning resumes after
the run; otherwise scanning advances one character. Fuel bounds recursion
depth; fuel equal to the input length is always sufficient. -/
def scanFuel : Nat → List Char → List (List Char)
  | 0, _ => []
  | _ + 1, [] => []
  | fuel + 1, c :: rest =>
    if c = '#' then
      match rest.takeWhile isWordChar with
      | [] => scanFuel fuel rest
      | r :: rs => ('#' :: r :: rs) :: scanFuel fuel (rest.drop (r :: rs).length)
    else scanFuel fuel rest

/-- Embedding of extract_hashtags (main.py lines 72 to 73): the findall of
the hashtag regex over the lower-cased text. The Python function returns a
list, in match order, with duplicates retained. -/
def extract_hashtags (text : String) : List String :=
  (scanFuel (lowerData text).length (lowerData text)).map (fun l => String.mk l)

/-- Number of positions in a character list where a hash sign is immediately
followed by a word character; used to state that the scanner finds exactly
one match per such position. -/
def hashtagStartCount : List Char → Nat
  | [] => 0
  | [_] => 0
  | c1 :: c2 :: rest =>
    (if c1 = '#' && isWordChar c2 then 1 else 0) + hashtagStartCount (c2 :: rest)

/-- Embedding of the fixed denylist BAD_WORDS (main.py line 66). -/
def BAD_WORDS : List String := ["madarchod", "bhosdike", "chutiya", "gaand", "bc"]

/-- Substring containment on character lists, modelling the Python membership
test of one string inside another: the needle is a prefix of some suffix of
the haystack. -/
def containsSub (needle : List Char) : List Char → Bool
  | [] => needle.isEmpty
  | c :: t => needle.isPrefixOf (c :: t) || containsSub needle t

/-- Embedding of is_profane (main.py lines 69 to 70): true when any
denylisted token is a substring of the lower-cased text. -/
def is_profane (text : String) : Bool :=
  BAD_WORDS.any (fun w => containsSub w.data (lowerData text))

/-- Outcome of the HTTP enrichment request (main.py line 80): either the
request or the JSON decoding raised, or a JSON object was obtained, carrying
an optional keywords entry and an optional sentiment entry. -/
inductive NetResponse where
  | failed : NetResponse
  | json (keywords : Option (List String)) (sentiment : Option String) : NetResponse
deriving DecidableEq

/-- Embedding of run_gemini_analysis (main.py lines 75 to 86): any raised
error is caught by the bare except clause and mapped to the pair of the empty
keyword list and the neutral sentiment; a decoded JSON object is read with
per-key defaults. The function is total: no exception reaches the caller.
The text argument only populates the request payload and cannot affect the
error handling. -/
def run_gemini_analysis (text : String) (resp : NetResponse) : List String × String :=
  match text, resp with
  | _, NetResponse.failed => ([], "neutral")
  | _, NetResponse.json kw s => (kw.getD [], s.getD "neutral")

/-- Message record of the volatile backend (main.py lines 122 to 130), the
dict appended to the in-memory list. The wall-clock timestamp is omitted. -/
structure MessageRecord where
  chat_id : String
  user_id : String
  username : Option String
  text : String
  profane : Bool
  hashtags : List String
deriving DecidableEq

/-- Row of the messages table of the durable backend (main.py lines 38 to
46): auto-incrementing identity key, no hashtags column. The wall-clock
timestamp column is omitted. -/
structure DBMessageRow where
  id : Nat
  chat_id : String
  user_id : String
  username : Option String
  text : String
  profane : Bool
deriving DecidableEq

/-- State of the messages table: rows in physical insertion order together
with the next identity key (SQLite identity keys start at one). -/
structure DBMsgStore where
  nextId : Nat
  rows : List DBMessageRow
deriving DecidableEq

/-- Message store behind the backend flag (main.py lines 28 and 58): the
volatile in-memory list or the durable table. -/
inductive Store where
  | volatile (msgs : List MessageRecord)
  | durable (db : DBMsgStore)
deriving DecidableEq

/-- Incoming update as seen by the message handler: chat, author and the
optional text (absent on non-text message types). -/
structure IncomingMsg where
  chat_id : String
  user_id : String
  username : Option String
  text : Option String
deriving DecidableEq

/-- Side effects the message handler performs, in order: the store append,
the profanity alert reply, the enrichment call. -/
inductive Action where
  | append (text : String)
  | alert (chat_id : String) (text : String)
  | enrich (text : String) (result : List String × String)
deriving DecidableEq

/-- Alert text of main.py line 134. -/
def warnText : String := "⚠️ Abusive language detected!"

/-- Record built by the volatile branch of log_message for a text message. -/
def mkRecord (m : IncomingMsg) (t : String) : MessageRecord :=
  { chat_id := m.chat_id, user_id := m.user_id, username := m.username,
    text := t, profane := is_profane t, hashtags := extract_hashtags t }

/-- Row built by the durable branch of log_message for a text message. -/
def mkRow (i : Nat) (m : IncomingMsg) (t : String) : DBMessageRow :=
  { id := i, chat_id := m.chat_id, user_id := m.user_id, username := m.username,
    text := t, profane := is_profane t }

/-- Embedding of the log_message handler (main.py lines 103 to 139). A falsy
text (absent or empty) returns at once: no store change, no side effect.
Otherwise the record is appended to the active backend, then the alert fires
when the text is profane and the author is premium, then the enrichment call
runs when the author is premium. The result pairs the new store state with
the ordered list of performed side effects. -/
def log_message (premium : Bool) (resp : NetResponse) (m : IncomingMsg) (s : Store) :
    Store × List Action :=
  match m.text with
  | none => (s, [])
  | some t =>
    if t = "" then (s, [])
    else
      let s1 : Store :=
        match s with
        | Store.volatile msgs => Store.volatile (msgs ++ [mkRecord m t])
        | Store.durable db => Store.durable ⟨db.nextId + 1, db.rows ++ [mkRow db.nextId m t]⟩
      let alerts : List Action :=
        if is_profane t && premium then [Action.alert m.chat_id warnText] else []
      let enrichs : List Action :=
        if premium then [Action.enrich t (run_gemini_analysis t resp)] else []
      (s1, Action.append t :: (alerts ++ enrichs))

/-- Read-back of all stored messages as the dashboard observes them
(main.py lines 175 to 180 for the fetch, line 193 for the durable backend
re-deriving hashtags from the stored text). Both backends are projected to
the common record shape the dashboard consumes. -/
def list_messages : Store → List MessageRecord
  | Store.volatile msgs => msgs
  | Store.durable db =>
    db.rows.map (fun r =>
      { chat_id := r.chat_id, user_id := r.user_id, username := r.username,
        text := r.text, profane := r.profane, hashtags := extract_hashtags r.text })

/-- Ingestion of a batch of events through log_message, threading the store;
each batch entry carries the premium flag and the enrichment outcome of that
event. -/
def ingestAll (batch : List (Bool × NetResponse × IncomingMsg)) (s : Store) : Store :=
  batch.foldl (fun st b => (log_message b.1 b.2.1 b.2.2 st).1) s

/-- Rows the durable backend accumulates for a batch, starting at a given
identity key. -/
def rowsFrom (i : Nat) : List (Bool × NetResponse × IncomingMsg) → List DBMessageRow
  | [] => []
  | b :: rest => mkRow i b.2.2 (b.2.2.text.getD "") :: rowsFrom (i + 1) rest

/-- Identity keys of the durable rows of a store, empty for the volatile
backend. -/
def dbIds : Store → List Nat
  | Store.volatile _ => []
  | Store.durable db => db.rows.map (fun r => r.id)

/-- Membership event record of the volatile backend (main.py lines 161 to
167), the dict appended to the in-memory list. The wall-clock timestamp is
omitted. -/
structure MembershipEvent where
  chat_id : String
  user_id : String
  username : Option String
  event_type : String
deriving DecidableEq

/-- Embedding of the status-pair classification of member_update (main.py
lines 144 to 148): join when the previous status is left or kicked and the
new status is member; leave when the previous status is member and the new
status is left or kicked; otherwise no event. -/
def classify_membership_transition (old_status new_status : String) : Option String :=
  if (old_status = "left" ∨ old_status = "kicked") ∧ new_status = "member" then some "join"
  else if old_status = "member" ∧ (new_status = "left" ∨ new_status = "kicked") then some "leave"
  else none

/-- Embedding of the member_update handler (main.py lines 141 to 167) over
the volatile event list: a recognized transition appends one event record
carrying its kind; any other status pair leaves the store unchanged and
raises nothing. -/
def member_update (chat_id user_id : String) (username : Option String)
    (old_status new_status : String) (store : List MembershipEvent) :
    List MembershipEvent :=
  match classify_membership_transition old_status new_status with
  | some ty => store ++ [⟨chat_id, user_id, username, ty⟩]
  | none => store

/-- Row of the member_events table of the durable backend (main.py lines 48
to 55). -/
structure DBEventRow where
  id : Nat
  chat_id : String
  user_id : String
  username : Option String
  event_type : String
deriving DecidableEq

/-- Membership event store behind the backend flag. -/
inductive EvtStore where
  | volatile (evts : List MembershipEvent)
  | durable (rows : List DBEventRow)
deriving DecidableEq

/-- Python runtime error relevant here: item access on an object that does
not support subscripting. -/
inductive PyErr where
  | typeError
deriving DecidableEq

/-- Event value as the dashboard iterates over it: a plain dict from the
volatile list, or an ORM row object from the durable table query. -/
inductive EvtObj where
  | dict (e : MembershipEvent)
  | orm (r : DBEventRow)
deriving DecidableEq

/-- Fetch of the membership events (main.py lines 175 to 180): the volatile
list yields dicts, the durable query yields ORM row objects. -/
def fetch_events : EvtStore → List EvtObj
  | EvtStore.volatile evts => evts.map EvtObj.dict
  | EvtStore.durable rows => rows.map EvtObj.orm

/-- Item access on the event_type key as performed on main.py lines 183 to
184: defined on a dict, a TypeError on an ORM row object, which supports
attribute access only. -/
def subscript_event_type : EvtObj → Except PyErr String
  | EvtObj.dict e => Except.ok e.event_type
  | EvtObj.orm _ => Except.error PyErr.typeError

/-- Embedding of the join and leave counting of main.py lines 183 to 184:
the length of the comprehension filtering events on the subscripted
event_type, with the first raised error propagating. -/
def count_event_type (ty : String) : List EvtObj → Except PyErr Nat
  | [] => Except.ok 0
  | e :: rest =>
    match subscript_event_type e with
    | Except.error err => Except.error err
    | Except.ok s =>
      match count_event_type ty rest with
      | Except.error err => Except.error err
      | Except.ok n => Except.ok (if s = ty then n + 1 else n)

/-- One counting step of a Python Counter: an already-seen key is bumped in
place, a fresh key is recorded at the end, so keys stay in first-seen order. -/
def bump {α : Type} [DecidableEq α] (acc : List (α × Nat)) (k : α) : List (α × Nat) :=
  if acc.any (fun p => p.1 = k) then
    acc.map (fun p => if p.1 = k then (p.1, p.2 + 1) else p)
  else acc ++ [(k, 1)]

/-- Python Counter over a list of keys: pairs of key and count, keys in
first-seen order. -/
def countKeys {α : Type} [DecidableEq α] (l : List α) : List (α × Nat) :=
  l.foldl bump []

/-- Stable insertion into a count-descending list: the new pair goes before
the first pair whose count does not exceed it, so among equal counts the
earlier pair keeps priority. -/
def insertDesc {α : Type} (p : α × Nat) : List (α × Nat) → List (α × Nat)
  | [] => [p]
  | q :: rest => if p.2 < q.2 then q :: insertDesc p rest else p :: q :: rest

/-- Stable sort by count descending, modelling the sorted call inside the
most_common method of a Python Counter: equal counts keep first-seen order. -/
def sortDesc {α : Type} : List (α × Nat) → List (α × Nat)
  | [] => []
  | p :: rest => insertDesc p (sortDesc rest)

/-- Embedding of the profanity leaderboard of the dashboard (main.py lines
186 to 198) over the volatile message list, with line 187 read in its only
plausible parse, the parenthesized conditional filter: keep the messages
whose stored profane flag is set, count them by the username value (absent
usernames count under the none key), sort counts descending with first-seen
tie-break, keep the first five. -/
def profanity_leaderboard (msgs : List MessageRecord) : List (Option String × Nat) :=
  (sortDesc (countKeys ((msgs.filter (fun m => m.profane)).map (fun m => m.username)))).take 5

/-- Embedding of the hashtag ranking of the dashboard (main.py lines 190 to
199) over the volatile message list: concatenate the stored hashtag lists of
all messages, count, sort descending with first-seen tie-break, keep the
first five. -/
def top5_hashtags (msgs : List MessageRecord) : List (String × Nat) :=
  (sortDesc (countKeys ((msgs.map (fun m => m.hashtags)).flatten))).take 5

/-- Concrete two-event batch used to instantiate the backend parity theorem. -/
def batchC4 : List (Bool × NetResponse × IncomingMsg) :=
  [(true, NetResponse.failed, ⟨"c", "u1", some "a", some "hello #Go"⟩),
   (false, NetResponse.json none none, ⟨"c", "u2", none, some "bc"⟩)]

theorem containsSub_iff (n h : List Char) : containsSub n h = true ↔ n <:+: h := by
  induction h with
  | nil => simp [containsSub, List.isEmpty_iff, List.infix_nil]
  | cons c t ih =>
    simp only [containsSub, Bool.or_eq_true, List.isPrefixOf_iff_prefix, ih,
      List.infix_cons_iff]

theorem scanFuel_nil (fuel : Nat) : scanFuel fuel [] = [] := by
  cases fuel <;> rfl

theorem scanFuel_cons (fuel : Nat) (c : Char) (rest : List Char) :
    scanFuel (fuel + 1) (c :: rest) =
      if c = '#' then
        match rest.takeWhile isWordChar with
        | [] => scanFuel fuel rest
        | r :: rs => ('#' :: r :: rs) :: scanFuel fuel (rest.drop (r :: rs).length)
      else scanFuel fuel rest := rfl

theorem scanFuel_sound (fuel : Nat) : ∀ (l : List Char), ∀ tok ∈ scanFuel fuel l,
    ∃ run : List Char, tok = '#' :: run ∧ run ≠ [] ∧
      (∀ c ∈ run, isWordChar c = true) ∧ tok <:+: l := by
  induction fuel with
  | zero => intro l tok h; simp [scanFuel] at h
  | succ fuel ih =>
    intro l tok h
    match l with
    | [] => rw [scanFuel_nil] at h; simp at h
    | c :: rest =>
      rw [scanFuel_cons] at h
      by_cases hc : c = '#'
      · rw [if_pos hc] at h
        cases htw : rest.takeWhile isWordChar with
        | nil =>
          rw [htw] at h
          obtain ⟨run, h1, h2, h3, h4⟩ := ih rest tok h
          exact ⟨run, h1, h2, h3, List.infix_cons_iff.mpr (Or.inr h4)⟩
        | cons r rs =>
          rw [htw] at h
          rcases List.mem_cons.mp h with h | h
          · refine ⟨r :: rs, h, by simp, ?_, ?_⟩
            · intro x hx
              exact List.mem_takeWhile_imp (htw ▸ hx)
            · subst h
              subst hc
              obtain ⟨u, hu⟩ := htw ▸ List.takeWhile_prefix (l := rest) (p := isWordChar)
              exact List.IsPrefix.isInfix ⟨u, by simp [hu]⟩
          · obtain ⟨run, h1, h2, h3, h4⟩ := ih _ tok h
            refine ⟨run, h1, h2, h3, List.infix_cons_iff.mpr (Or.inr ?_)⟩
            exact h4.trans (List.drop_suffix _ _).isInfix
      · rw [if_neg hc] at h
        obtain ⟨run, h1, h2, h3, h4⟩ := ih rest tok h
        exact ⟨run, h1, h2, h3, List.infix_cons_iff.mpr (Or.inr h4)⟩

theorem hashtagStartCount_cons_of_word (w : Char) (l : List Char)
    (hw : isWordChar w = true) : hashtagStartCount (w :: l) = hashtagStartCount l := by
  have hwne : w ≠ '#' := by
    intro h
    subst h
    exact absurd hw (by decide)
  cases l with
  | nil => rfl
  | cons a l' => simp [hashtagStartCount, hwne]

theorem hashtagStartCount_words_append (pre sfx : List Char)
    (h : ∀ c ∈ pre, isWordChar c = true) :
    hashtagStartCount (pre ++ sfx) = hashtagStartCount sfx := by
  induction pre with
  | nil => rfl
  | cons w pre' ih =>
    rw [List.cons_append, hashtagStartCount_cons_of_word w _ (h w (by simp))]
    exact ih (fun c hc => h c (by simp [hc]))

theorem scanFuel_length (fuel : Nat) : ∀ (l : List Char), l.length ≤ fuel →
    (scanFuel fuel l).length = hashtagStartCount l := by
  induction fuel with
  | zero =>
    intro l hl
    rw [List.length_eq_zero.mp (Nat.le_zero.mp hl)]
    rfl
  | succ fuel ih =>
    intro l hl
    match l with
    | [] => rw [scanFuel_nil]; rfl
    | c :: rest =>
      rw [scanFuel_cons]
      have hrest : rest.length ≤ fuel := by
        simpa using Nat.succ_le_succ_iff.mp (by simpa using hl)
      by_cases hc : c = '#'
      · rw [if_pos hc]
        cases htw : rest.takeWhile isWordChar with
        | nil =>
          cases rest with
          | nil => rw [scanFuel_nil]; rfl
          | cons a rest' =>
            have ha : isWordChar a = false := by
              cases hWa : isWordChar a
              · rfl
              · rw [List.takeWhile_cons, hWa] at htw
                simp at htw
            rw [ih _ hrest]
            subst hc
            simp [hashtagStartCount, ha]
        | cons r rs =>
          obtain ⟨u, hu⟩ := htw ▸ List.takeWhile_prefix (l := rest) (p := isWordChar)
          have hword : ∀ x ∈ r :: rs, isWordChar x = true := by
            intro x hx
            exact List.mem_takeWhile_imp (htw ▸ hx)
          have hdropu : rest.drop (r :: rs).length = u := by
            rw [← hu, List.drop_left]
          have hulen : u.length ≤ fuel := by
            have := congrArg List.length hu
            simp at this
            omega
          subst hc
          show (('#' :: r :: rs) :: scanFuel fuel (rest.drop (r :: rs).length)).length =
            hashtagStartCount ('#' :: rest)
          rw [hdropu]
          have hrw : hashtagStartCount ('#' :: rest) = 1 + hashtagStartCount u := by
            rw [← hu]
            show (if '#' = '#' && isWordChar r then 1 else 0) +
                hashtagStartCount (r :: (rs ++ u)) = 1 + hashtagStartCount u
            rw [show (r :: (rs ++ u)) = (r :: rs) ++ u by simp,
              hashtagStartCount_words_append _ _ hword]
            simp [hword r (by simp)]
          rw [hrw]
          simp only [List.length_cons, ih _ hulen]
          omega
      · rw [if_neg hc]
        cases rest with
        | nil => rw [scanFuel_nil]; rfl
        | cons a rest' =>
          rw [ih _ hrest]
          simp [hashtagStartCount, hc]

/-- C1: the claim calls the result of extract_hashtags a set with duplicates
collapsed; the function returns the findall list, which retains duplicate
occurrences, as the repeated hashtag below shows. -/
theorem C1_cex_duplicates_kept :
    extract_hashtags "#a #a" = ["#a", "#a"] ∧ ¬ (extract_hashtags "#a #a").Nodup := by
  exact ⟨by decide, by decide⟩

/-- C1 (amended): extract_hashtags returns the list, in match order and with
duplicates retained, of the lower-cased tokens consisting of a hash sign
followed by one or more word characters found in the text; every returned
token occurs literally in the lower-cased text, a punctuation-adjacent
hashtag captures only its word-character run, and exactly one token is
returned per position where a hash sign immediately precedes a word
character. -/
theorem C1_extract_hashtags_matches (t : String) :
    (∀ s ∈ extract_hashtags t, ∃ run : List Char,
        s.data = '#' :: run ∧ run ≠ [] ∧ (∀ c ∈ run, isWordChar c = true) ∧
        s.data <:+: lowerData t)
  ∧ (extract_hashtags t).length = hashtagStartCount (lowerData t) := by
  constructor
  · intro s hs
    simp only [extract_hashtags, List.mem_map] at hs
    obtain ⟨tok, htok, rfl⟩ := hs
    obtain ⟨run, h1, h2, h3, h4⟩ := scanFuel_sound _ _ tok htok
    exact ⟨run, h1, h2, h3, h4⟩
  · simp only [extract_hashtags, List.length_map]
    exact scanFuel_length _ _ (Nat.le_refl _)

/-- C1 (witness): the token of the concrete text below satisfies the amended
statement. -/
theorem C1_extract_hashtags_matches_w :
    ("#tag" : String) ∈ extract_hashtags "Go #Tag!" ∧
    (∃ run : List Char, ("#tag" : String).data = '#' :: run ∧ run ≠ [] ∧
      (∀ c ∈ run, isWordChar c = true) ∧ ("#tag" : String).data <:+: lowerData "Go #Tag!") :=
  ⟨by decide, (C1_extract_hashtags_matches "Go #Tag!").1 "#tag" (by decide)⟩

/-- C6: is_profane is true exactly when some denylisted token occurs as a
substring of the lower-cased text, with no word-boundary condition; it is
true on the first concrete text and false on the empty text. -/
theorem C6_is_profane_iff :
    (∀ t : String, is_profane t = true ↔ ∃ w ∈ BAD_WORDS, w.data <:+: lowerData t)
  ∧ is_profane "you bc idiot" = true ∧ is_profane "" = false := by
  refine ⟨?_, by decide, by decide⟩
  intro t
  simp [is_profane, List.any_eq_true, containsSub_iff]

theorem append_singleton_ne (store : List MembershipEvent) (e : MembershipEvent) :
    store ++ [e] ≠ store := by
  intro h
  have := congrArg List.length h
  simp at this

/-- C3: member_update appends exactly one record iff the ordered status pair
matches a recognized pattern, with kind join iff the previous status is left
or kicked and the new one is member, kind leave iff the previous status is
member and the new one is left or kicked, and leaves the store untouched on
every other pair, including member to member and administrator to member. -/
theorem C3_member_update_patterns (old_status new_status chat_id user_id : String)
    (username : Option String) (store : List MembershipEvent) :
    (member_update chat_id user_id username old_status new_status store =
        store ++ [⟨chat_id, user_id, username, "join"⟩] ↔
      (old_status = "left" ∨ old_status = "kicked") ∧ new_status = "member")
  ∧ (member_update chat_id user_id username old_status new_status store =
        store ++ [⟨chat_id, user_id, username, "leave"⟩] ↔
      old_status = "member" ∧ (new_status = "left" ∨ new_status = "kicked"))
  ∧ (¬ (((old_status = "left" ∨ old_status = "kicked") ∧ new_status = "member") ∨
        (old_status = "member" ∧ (new_status = "left" ∨ new_status = "kicked"))) →
      member_update chat_id user_id username old_status new_status store = store) := by
  unfold member_update classify_membership_transition
  by_cases h1 : (old_status = "left" ∨ old_status = "kicked") ∧ new_status = "member"
  · rw [if_pos h1]
    refine ⟨⟨fun _ => h1, fun _ => rfl⟩, ⟨fun h => ?_, fun h2 => ?_⟩, fun hn => absurd (Or.inl h1) hn⟩
    · have := List.append_cancel_left h
      simp at this
    · rcases h1 with ⟨h1a, h1b⟩
      rcases h2 with ⟨h2a, h2b⟩
      rw [h1b] at h2b
      rcases h2b with h | h <;> simp at h
  · rw [if_neg h1]
    by_cases h2 : old_status = "member" ∧ (new_status = "left" ∨ new_status = "kicked")
    · rw [if_pos h2]
      refine ⟨⟨fun h => ?_, fun hj => absurd hj h1⟩, ⟨fun _ => h2, fun _ => rfl⟩,
        fun hn => absurd (Or.inr h2) hn⟩
      have := List.append_cancel_left h
      simp at this
    · rw [if_neg h2]
      refine ⟨⟨fun h => ?_, fun hj => absurd hj h1⟩,
        ⟨fun h => ?_, fun hl => absurd hl h2⟩, fun _ => rfl⟩
      · exact absurd h.symm (append_singleton_ne store _)
      · exact absurd h.symm (append_singleton_ne store _)

/-- C3 (witness): the administrator to member pair at concrete arguments
appends nothing and raises nothing. -/
theorem C3_member_update_patterns_w :
    member_update "c" "u" (some "bob") "administrator" "member" [] = [] :=
  (C3_member_update_patterns "administrator" "member" "c" "u" (some "bob") []).2.2 (by decide)

/-- C7: run_gemini_analysis returns the empty keyword list paired with the
neutral sentiment whenever the request raised or the decoded response carries
none of the expected keys, for every input text; the bare except clause makes
the embedding a total function, so no exception reaches the caller. -/
theorem C7_enrichment_fallback (text : String) :
    run_gemini_analysis text NetResponse.failed = ([], "neutral")
  ∧ run_gemini_analysis text (NetResponse.json none none) = ([], "neutral") :=
  ⟨rfl, rfl⟩

/-- C8: for a text-bearing event the store append is the head of the ordered
side-effect sequence, so it completes before any enrichment call; the
appended record is immediately queryable; and the resulting store state is
identical for any two enrichment outcomes, so an enrichment failure or
timeout never delays, fails or rolls back the append. -/
theorem C8_append_before_enrichment (premium : Bool) (e1 e2 : NetResponse)
    (m : IncomingMsg) (s : Store) (t : String) (ht : m.text = some t) (hne : t ≠ "") :
    (log_message premium e1 m s).1 = (log_message premium e2 m s).1
  ∧ list_messages (log_message premium e1 m s).1 = list_messages s ++ [mkRecord m t]
  ∧ ∃ rest, (log_message premium e1 m s).2 = Action.append t :: rest := by
  simp only [log_message, ht, if_neg hne]
  refine ⟨by cases s <;> trivial, ?_, ⟨_, rfl⟩⟩
  cases s <;> simp [list_messages, mkRecord, mkRow]

/-- C8 (witness): concrete instantiation over the empty volatile store, with
a premium author and the two distinct enrichment outcomes. -/
theorem C8_append_before_enrichment_w :
    (log_message true NetResponse.failed ⟨"c1", "u1", some "bob", some "bc #x"⟩
        (Store.volatile [])).1 =
      (log_message true (NetResponse.json none none) ⟨"c1", "u1", some "bob", some "bc #x"⟩
        (Store.volatile [])).1
  ∧ list_messages (log_message true NetResponse.failed ⟨"c1", "u1", some "bob", some "bc #x"⟩
        (Store.volatile [])).1 =
      list_messages (Store.volatile []) ++ [mkRecord ⟨"c1", "u1", some "bob", some "bc #x"⟩ "bc #x"]
  ∧ ∃ rest, (log_message true NetResponse.failed ⟨"c1", "u1", some "bob", some "bc #x"⟩
        (Store.volatile [])).2 = Action.append "bc #x" :: rest :=
  C8_append_before_enrichment true NetResponse.failed (NetResponse.json none none)
    ⟨"c1", "u1", some "bob", some "bc #x"⟩ (Store.volatile []) "bc #x" rfl (by decide)

/-- C9: an event whose message carries no text, or an empty text, changes
neither backend and performs no side effect; the embedding returns normally,
so nothing is raised. Every event with nonempty text appends exactly one
message record to the active backend. -/
theorem C9_silent_drop (premium : Bool) (e : NetResponse) (m : IncomingMsg) (s : Store) :
    ((m.text = none ∨ m.text = some "") → log_message premium e m s = (s, []))
  ∧ (∀ t, m.text = some t → t ≠ "" →
      list_messages (log_message premium e m s).1 = list_messages s ++ [mkRecord m t]) := by
  constructor
  · rintro (h | h) <;> simp [log_message, h]
  · intro t ht hne
    simp only [log_message, ht]
    rw [if_neg hne]
    cases s <;> simp [list_messages, mkRecord, mkRow]

/-- C9 (witness): a textless event over either backend is dropped silently,
and a concrete nonempty text event appends its record. -/
theorem C9_silent_drop_w :
    log_message false NetResponse.failed ⟨"c1", "u2", none, none⟩ (Store.volatile []) =
      (Store.volatile [], [])
  ∧ list_messages (log_message false NetResponse.failed ⟨"c1", "u2", none, some "hello"⟩
        (Store.volatile [])).1 =
      list_messages (Store.volatile []) ++ [mkRecord ⟨"c1", "u2", none, some "hello"⟩ "hello"] :=
  ⟨(C9_silent_drop false NetResponse.failed ⟨"c1", "u2", none, none⟩ (Store.volatile [])).1
      (Or.inl rfl),
   (C9_silent_drop false NetResponse.failed ⟨"c1", "u2", none, some "hello"⟩
      (Store.volatile [])).2 "hello" rfl (by decide)⟩

theorem count_event_type_dicts (ty : String) (evts : List MembershipEvent) :
    count_event_type ty (evts.map EvtObj.dict) =
      Except.ok (evts.filter (fun e => e.event_type = ty)).length := by
  induction evts with
  | nil => rfl
  | cons e rest ih =>
    simp only [List.map_cons, count_event_type, subscript_event_type, ih, List.filter_cons]
    by_cases h : e.event_type = ty <;> simp [h]

/-- C2: over the volatile backend the dashboard's join and leave counts are
exactly the cardinalities of the stored membership events filtered by kind;
over the durable backend the same two lines subscript SQLAlchemy ORM row
objects, so as soon as one membership event is stored the computation raises
a TypeError instead of returning a count, and the two backends do not agree. -/
theorem C2_dashboard_counts (evts : List MembershipEvent) :
    (count_event_type "join" (fetch_events (EvtStore.volatile evts)) =
        Except.ok (evts.filter (fun e => e.event_type = "join")).length
     ∧ count_event_type "leave" (fetch_events (EvtStore.volatile evts)) =
        Except.ok (evts.filter (fun e => e.event_type = "leave")).length)
  ∧ count_event_type "join" (fetch_events (EvtStore.durable [⟨1, "c", "u", none, "join"⟩])) =
      Except.error PyErr.typeError := by
  exact ⟨⟨count_event_type_dicts _ _, count_event_type_dicts _ _⟩, rfl⟩

theorem ingestAll_cons (b : Bool × NetResponse × IncomingMsg)
    (rest : List (Bool × NetResponse × IncomingMsg)) (s : Store) :
    ingestAll (b :: rest) s = ingestAll rest ((log_message b.1 b.2.1 b.2.2 s).1) := rfl

theorem batch_text_some (b : Bool × NetResponse × IncomingMsg)
    (hb : b.2.2.text ≠ none ∧ b.2.2.text ≠ some "") :
    ∃ t, b.2.2.text = some t ∧ t ≠ "" := by
  cases hx : b.2.2.text with
  | none => exact absurd hx hb.1
  | some t =>
    refine ⟨t, rfl, ?_⟩
    intro h0
    rw [h0] at hx
    exact hb.2 hx

theorem ingestAll_volatile (batch : List (Bool × NetResponse × IncomingMsg)) :
    ∀ (msgs : List MessageRecord),
    (∀ b ∈ batch, b.2.2.text ≠ none ∧ b.2.2.text ≠ some "") →
    ingestAll batch (Store.volatile msgs) =
      Store.volatile (msgs ++ batch.map (fun b => mkRecord b.2.2 (b.2.2.text.getD ""))) := by
  induction batch with
  | nil => intro msgs _; simp [ingestAll]
  | cons b rest ih =>
    intro msgs h
    obtain ⟨t, ht, hne⟩ := batch_text_some b (h b (by simp))
    have hstep : (log_message b.1 b.2.1 b.2.2 (Store.volatile msgs)).1 =
        Store.volatile (msgs ++ [mkRecord b.2.2 t]) := by
      simp [log_message, ht, hne]
    rw [ingestAll_cons, hstep, ih _ (fun x hx => h x (by simp [hx]))]
    simp [ht]

theorem ingestAll_durable (batch : List (Bool × NetResponse × IncomingMsg)) :
    ∀ (db : DBMsgStore),
    (∀ b ∈ batch, b.2.2.text ≠ none ∧ b.2.2.text ≠ some "") →
    ingestAll batch (Store.durable db) =
      Store.durable ⟨db.nextId + batch.length, db.rows ++ rowsFrom db.nextId batch⟩ := by
  induction batch with
  | nil => intro db _; simp [ingestAll, rowsFrom]
  | cons b rest ih =>
    intro db h
    obtain ⟨t, ht, hne⟩ := batch_text_some b (h b (by simp))
    have hstep : (log_message b.1 b.2.1 b.2.2 (Store.durable db)).1 =
        Store.durable ⟨db.nextId + 1, db.rows ++ [mkRow db.nextId b.2.2 t]⟩ := by
      simp [log_message, ht, hne]
    rw [ingestAll_cons, hstep, ih _ (fun x hx => h x (by simp [hx]))]
    simp only [Store.durable.injEq, DBMsgStore.mk.injEq]
    constructor
    · simp only [List.length_cons]
      omega
    · simp [rowsFrom, ht, List.append_assoc]

theorem rowsFrom_observed (batch : List (Bool × NetResponse × IncomingMsg)) :
    ∀ i, (rowsFrom i batch).map (fun r =>
      ({ chat_id := r.chat_id, user_id := r.user_id, username := r.username,
         text := r.text, profane := r.profane,
         hashtags := extract_hashtags r.text } : MessageRecord)) =
      batch.map (fun b => mkRecord b.2.2 (b.2.2.text.getD "")) := by
  induction batch with
  | nil => intro i; rfl
  | cons b rest ih => intro i; simp [rowsFrom, mkRecord, mkRow, ih]

theorem rowsFrom_ids (batch : List (Bool × NetResponse × IncomingMsg)) :
    ∀ i, (rowsFrom i batch).map (fun r => r.id) = List.range' i batch.length := by
  induction batch with
  | nil => intro i; rfl
  | cons b rest ih => intro i; simp [rowsFrom, mkRow, List.range'_succ, ih]

/-- C4: ingesting a batch of n nonempty text events from the empty store
yields, on both backends, exactly the n records of the batch in append
order with the same observable content (the dashboard re-derives hashtags
from the stored text on the durable backend, so the projections coincide);
the durable identity keys are the consecutive integers starting at one, so
primary-key order is append order. -/
theorem C4_backend_parity (batch : List (Bool × NetResponse × IncomingMsg))
    (h : ∀ b ∈ batch, b.2.2.text ≠ none ∧ b.2.2.text ≠ some "") :
    list_messages (ingestAll batch (Store.volatile [])) =
      batch.map (fun b => mkRecord b.2.2 (b.2.2.text.getD ""))
  ∧ list_messages (ingestAll batch (Store.durable ⟨1, []⟩)) =
      batch.map (fun b => mkRecord b.2.2 (b.2.2.text.getD ""))
  ∧ (list_messages (ingestAll batch (Store.volatile []))).length = batch.length
  ∧ dbIds (ingestAll batch (Store.durable ⟨1, []⟩)) = List.range' 1 batch.length := by
  have hv := ingestAll_volatile batch [] h
  have hd := ingestAll_durable batch ⟨1, []⟩ h
  refine ⟨?_, ?_, ?_, ?_⟩
  · rw [hv]; simp [list_messages]
  · rw [hd]; simp only [list_messages, List.nil_append]; exact rowsFrom_observed batch 1
  · rw [hv]; simp [list_messages]
  · rw [hd]; simp only [dbIds, List.nil_append]; exact rowsFrom_ids batch 1

/-- C4 (witness): the parity theorem instantiated at the concrete batch. -/
theorem C4_backend_parity_w :
    (∀ b ∈ batchC4, b.2.2.text ≠ none ∧ b.2.2.text ≠ some "")
  ∧ (list_messages (ingestAll batchC4 (Store.volatile [])) =
        batchC4.map (fun b => mkRecord b.2.2 (b.2.2.text.getD ""))
     ∧ list_messages (ingestAll batchC4 (Store.durable ⟨1, []⟩)) =
        batchC4.map (fun b => mkRecord b.2.2 (b.2.2.text.getD ""))
     ∧ (list_messages (ingestAll batchC4 (Store.volatile []))).length = batchC4.length
     ∧ dbIds (ingestAll batchC4 (Store.durable ⟨1, []⟩)) = List.range' 1 batchC4.length) :=
  ⟨by decide, C4_backend_parity batchC4 (by decide)⟩

/-- C5: evaluation of the leaderboard, with line 187 of main.py read in its
only plausible parse, at the store of the claim: three profane messages from
usernames a, b and a give the pairs a with two and b with one, in that
order. The line as written in the source is a syntax error, so the claim
describes intended rather than actual behavior; see the results record. -/
theorem C5_leaderboard_instance :
    profanity_leaderboard
      [{ chat_id := "c", user_id := "1", username := some "a", text := "bc",
         profane := true, hashtags := [] },
       { chat_id := "c", user_id := "2", username := some "b", text := "bc",
         profane := true, hashtags := [] },
       { chat_id := "c", user_id := "1", username := some "a", text := "bc",
         profane := true, hashtags := [] }] = [(some "a", 2), (some "b", 1)] := by
  decide

/-- C10: the dashboard truncates both rankings to five entries for every
store contents; the embedded dashboard functions take no cutoff argument,
mirroring the hard-coded most_common argument of main.py lines 198 to 199. -/
theorem C10_top5_bound (msgs : List MessageRecord) :
    (profanity_leaderboard msgs).length ≤ 5 ∧ (top5_hashtags msgs).length ≤ 5 := by
  constructor
  · simp only [profanity_leaderboard, List.length_take]
    omega
  · simp only [top5_hashtags, List.length_take]
    omega

end Web
